import Mathlib

/-!
Shallow embedding of `death_value.py` from the CS2-DeathValue repository.

Python floats are modelled as real numbers, pandas data frames as lists of
records, and the insertion-ordered Python dictionary `death_values` as an
association list kept in insertion order.  Functions of the external `awpy`
library (`Demo`, `parse_kills`, `calculate_trades`, plotting) are treated as
abstract inputs carried by the environment, as the specification lists them
as external collaborators.
-/

namespace DeathValue

/-- Euclidean distance between two 2D points (`calc_distance` in the source). -/
noncomputable def calc_distance (x1 y1 x2 y2 : ℝ) : ℝ :=
  Real.sqrt ((x1 - x2) ^ 2 + (y1 - y2) ^ 2)

/-- The element-wise exponentials of the negated, 1000-scaled distances:
the intermediate arrays `scaled_distances` and `exp_distances` of `softmax`. -/
noncomputable def expDistances (distances : List ℝ) : List ℝ :=
  distances.map fun d => Real.exp (-(d / 1000))

/-- `softmax` from the source: scale the distances by 1000, negate,
exponentiate, and divide each exponential by their sum.  On the empty list
numpy returns an empty array (whose sum is 0), matched here by `List.map`
over the empty list. -/
noncomputable def softmax (distances : List ℝ) : List ℝ :=
  (expDistances distances).map fun e => e / (expDistances distances).sum

/-- One row of `demo_data.ticks[["tick", "X", "Y", "team_name", "name"]]`. -/
structure Location where
  tick : Nat
  X : ℝ
  Y : ℝ
  team_name : String
  name : String

/-- One row of a kills table.  Both `player_deaths` (rows of
`parse_kills(demo_data.events)` filtered to the subject victim) and `kills`
(`demo_data.kills`) are tables of this shape; the source reads `tick`,
`round`, `victim_name`, `victim_team_name`, `victim_X` and `victim_Y`. -/
structure KillRow where
  tick : Nat
  round : Nat
  victim_name : String
  victim_team_name : String
  victim_X : ℝ
  victim_Y : ℝ

/-- One row of `calculate_trades(kills)`: the external library output
consumed by the second pass of `get_death_values`. -/
structure Trade where
  tick : Nat
  victim_name : String
  was_traded : Bool

/-- One tuple appended to `teammates_data` by `get_teammates_on_death`. -/
structure ProxRow where
  tick : Nat
  round : Nat
  name : String
  weight : ℝ

/-- The `teammates` list built inside `get_teammates_on_death` for one death:
location rows at the death tick, on the victim's team, excluding the subject
player. -/
def teammatesAt (locations : List Location) (player_name : String)
    (death : KillRow) : List Location :=
  locations.filter fun l =>
    l.tick == death.tick && l.team_name == death.victim_team_name &&
      !(l.name == player_name)

/-- The `distances` list built inside `get_teammates_on_death` for one death:
the Euclidean distance of each teammate from the death position. -/
noncomputable def deathDistances (locations : List Location) (player_name : String)
    (death : KillRow) : List ℝ :=
  (teammatesAt locations player_name death).map fun tm =>
    calc_distance death.victim_X death.victim_Y tm.X tm.Y

/-- The block of tuples appended to `teammates_data` for one (death, kill)
pair with matching ticks: the teammates zipped with the softmax of
their distances to the death position. -/
noncomputable def deathKillRows (locations : List Location) (player_name : String)
    (death kill : KillRow) : List ProxRow :=
  ((teammatesAt locations player_name death).zip
      (softmax (deathDistances locations player_name death))).map fun p =>
    { tick := death.tick, round := kill.round, name := p.1.name, weight := p.2 }

/-- `get_teammates_on_death` from the source: for every death of the subject
player and every kill row sharing its tick, emit one proximity row per
teammate present at that tick. -/
noncomputable def get_teammates_on_death (locations : List Location)
    (player_name : String) (player_deaths kills : List KillRow) : List ProxRow :=
  player_deaths.flatMap fun death =>
    (kills.filter fun kill => kill.tick == death.tick).flatMap fun kill =>
      deathKillRows locations player_name death kill

/-- The value stored in the `death_values` dictionary for a tick. -/
structure DVal where
  softmax_value : ℝ
  was_traded : Bool
  round : Nat
  teammate : String

/-- Python's `tick in death_values` membership test. -/
def keyMem (dv : List (Nat × DVal)) (k : Nat) : Bool :=
  dv.any fun p => p.1 == k

/-- Lookup in the insertion-ordered dictionary (`death_values[tick]`). -/
def dictGet? (dv : List (Nat × DVal)) (k : Nat) : Option DVal :=
  (dv.find? fun p => p.1 == k).map Prod.snd

/-- Python's `death_values[tick] = v`: replace in place when the key is
present, append at the end otherwise (insertion-order semantics of `dict`). -/
def dictSet (dv : List (Nat × DVal)) (k : Nat) (v : DVal) : List (Nat × DVal) :=
  if keyMem dv k then dv.map fun p => if p.1 == k then (k, v) else p
  else dv ++ [(k, v)]

/-- One iteration of the first loop of `get_death_values` on one
`teammates_data` row: keep the strictly larger softmax value per tick. -/
noncomputable def aggStep (dv : List (Nat × DVal)) (row : ProxRow) :
    List (Nat × DVal) :=
  match dictGet? dv row.tick with
  | some cur =>
      if row.weight > cur.softmax_value then
        dictSet dv row.tick ⟨row.weight, false, row.round, row.name⟩
      else dv
  | none => dictSet dv row.tick ⟨row.weight, false, row.round, row.name⟩

/-- The first pass of `get_death_values`: fold the proximity rows into the
(initially empty) dictionary. -/
noncomputable def aggregate (rows : List ProxRow) : List (Nat × DVal) :=
  rows.foldl aggStep []

/-- One iteration of the second loop of `get_death_values` on one trade row:
if the subject died and was traded, set `was_traded` of that tick's record,
keeping its other fields. -/
noncomputable def tradeStep (player_name : String) (dv : List (Nat × DVal))
    (tr : Trade) : List (Nat × DVal) :=
  if tr.victim_name = player_name ∧ tr.was_traded = true then
    match dictGet? dv tr.tick with
    | some cur => dictSet dv tr.tick ⟨cur.softmax_value, true, cur.round, cur.teammate⟩
    | none => dv
  else dv

/-- The second pass of `get_death_values`: fold the trade rows over the
aggregated dictionary. -/
noncomputable def applyTrades (player_name : String) (trades : List Trade)
    (dv : List (Nat × DVal)) : List (Nat × DVal) :=
  trades.foldl (tradeStep player_name) dv

/-- `get_death_values` from the source.  The source computes
`trades = calculate_trades(kills)` via the external `awpy` library; the
`trades` parameter carries that externally computed table. -/
noncomputable def get_death_values (teammates_data : List ProxRow)
    (player_name : String) (trades : List Trade) : List (Nat × DVal) :=
  applyTrades player_name trades (aggregate teammates_data)

/-- One row of the `w_death_values` data frame produced by `calc_weight`,
with columns Tick, Proximity, Was Traded, Weighted Score, Round,
Closest Teammate. -/
structure ScoreRow where
  tick : Nat
  proximity : ℝ
  was_traded : Bool
  weighted_score : ℝ
  round : Nat
  closest_teammate : String

/-- `calc_weight` from the source: one output row per dictionary record,
scored by `alpha * (1 - softmax_value) + (beta if was_traded else 0)`.
The source defaults are `alpha = 0.7` and `beta = 0.3`. -/
noncomputable def calc_weight (death_values : List (Nat × DVal))
    (alpha beta : ℝ) : List ScoreRow :=
  death_values.map fun p =>
    { tick := p.1
      proximity := p.2.softmax_value
      was_traded := p.2.was_traded
      weighted_score := alpha * (1 - p.2.softmax_value) +
        (if p.2.was_traded then beta else 0)
      round := p.2.round
      closest_teammate := p.2.teammate }

/-- Whether some trade row marks the subject player as traded at tick `t`;
used to state the effect of the second pass of `get_death_values`. -/
def tradedAt (player_name : String) (trades : List Trade) (t : Nat) : Bool :=
  trades.any fun tr =>
    tr.victim_name == player_name && tr.was_traded && tr.tick == t

/-- Colours of the `colorama` codes used by the source's prints. -/
inductive Color where
  | red
  | green

/-- The environment of one batch run: the CLI arguments together with the
data supplied by the external replay library. -/
structure Env where
  demo_file : String
  player_name : String
  map_flag : Bool
  file_exists : Bool
  kills : Option (List KillRow)
  ticks : Option (List Location)
  parsed_kills : List KillRow
  trades : List Trade

/-- The observable outcome of one run of the `__main__` block: either an
early termination with a single coloured message and an interpreter exit
code, or a completed run with the score table and the written output files. -/
inductive RunResult where
  | exited (color : Color) (msg : String) (code : Nat) (outputs : List String)
  | completed (table : List ScoreRow) (outputs : List String)

/-- The `__main__` block of the source.  Each precondition failure calls
`sys.exit()` with no argument, which raises `SystemExit(None)`; the Python
interpreter maps that to exit status 0, recorded here as the `code` field. -/
noncomputable def main (env : Env) : RunResult :=
  if env.file_exists = false then
    .exited .red ("[X] " ++ env.demo_file ++ " not found. Exiting..") 0 []
  else
    match env.kills with
    | none => .exited .red "[X] Kills not found in demo. Exiting.." 0 []
    | some kills =>
      match env.ticks with
      | none => .exited .red "[X] Ticks not found in the demo file. Exiting.." 0 []
      | some locations =>
        let player_deaths :=
          env.parsed_kills.filter fun k => k.victim_name == env.player_name
        let teammates_data :=
          get_teammates_on_death locations env.player_name player_deaths kills
        let death_values :=
          get_death_values teammates_data env.player_name env.trades
        let w := calc_weight death_values 0.7 0.3
        .completed w ((env.player_name ++ "_deaths.xlsx") ::
          (if env.map_flag then ["deathmap.png"] else []))

/-- The interpreter exit status of a run, when it exited early. -/
def exitCode : RunResult → Option Nat
  | .exited _ _ c _ => some c
  | .completed _ _ => none

/-- A junk `ScoreRow` used as the default of `List.getD`. -/
noncomputable def scoreRow0 : ScoreRow :=
  ⟨0, 0, false, 0, 0, ""⟩

/-- A junk dictionary entry used as the default of `List.getD`. -/
noncomputable def entry0 : Nat × DVal :=
  (0, ⟨0, false, 0, ""⟩)

/-! Dictionary lemmas: the insertion-ordered association list faithfully
implements Python `dict` membership, lookup and update. -/

theorem keyMem_iff_exists (dv : List (Nat × DVal)) (k : Nat) :
    keyMem dv k = true ↔ ∃ p ∈ dv, p.1 = k := by
  simp [keyMem, List.any_eq_true]

theorem dictGet?_eq_none_iff (dv : List (Nat × DVal)) (k : Nat) :
    dictGet? dv k = none ↔ ∀ p ∈ dv, p.1 ≠ k := by
  simp [dictGet?, List.find?_eq_none]

theorem keyMem_eq_false_iff (dv : List (Nat × DVal)) (k : Nat) :
    keyMem dv k = false ↔ dictGet? dv k = none := by
  rw [← Bool.not_eq_true, keyMem_iff_exists, dictGet?_eq_none_iff]
  push_neg
  rfl

theorem dictGet?_cons_pos (p : Nat × DVal) (dv : List (Nat × DVal)) (k : Nat)
    (hp : p.1 = k) : dictGet? (p :: dv) k = some p.2 := by
  simp [dictGet?, List.find?_cons_of_pos, hp]

theorem dictGet?_cons_neg (p : Nat × DVal) (dv : List (Nat × DVal)) (k : Nat)
    (hp : p.1 ≠ k) : dictGet? (p :: dv) k = dictGet? dv k := by
  simp only [dictGet?]
  rw [List.find?_cons_of_neg]
  simp [hp]

theorem dictGet?_mem_of_some (dv : List (Nat × DVal)) (k : Nat) (v : DVal)
    (h : dictGet? dv k = some v) : (k, v) ∈ dv := by
  simp only [dictGet?, Option.map_eq_some'] at h
  obtain ⟨p, hp, hv⟩ := h
  have hmem := List.mem_of_find?_eq_some hp
  have hk := List.find?_some hp
  simp only [beq_iff_eq] at hk
  have : p = (k, v) := by
    cases p
    simp_all
  rw [← this]
  exact hmem

theorem dictGet?_isSome_iff (dv : List (Nat × DVal)) (k : Nat) :
    (∃ v, dictGet? dv k = some v) ↔ k ∈ dv.map Prod.fst := by
  constructor
  · rintro ⟨v, hv⟩
    exact List.mem_map.2 ⟨(k, v), dictGet?_mem_of_some dv k v hv, rfl⟩
  · intro hk
    cases hg : dictGet? dv k with
    | some v => exact ⟨v, rfl⟩
    | none =>
      obtain ⟨p, hp, hfst⟩ := List.mem_map.1 hk
      exact absurd hfst ((dictGet?_eq_none_iff dv k).1 hg p hp)

theorem dictGet?_replace_self (dv : List (Nat × DVal)) (k : Nat) (v : DVal)
    (h : keyMem dv k = true) :
    dictGet? (dv.map fun p => if p.1 == k then (k, v) else p) k = some v := by
  induction dv with
  | nil => simp [keyMem] at h
  | cons p rest ih =>
    by_cases hp : p.1 = k
    · have hb : (p.1 == k) = true := beq_iff_eq.2 hp
      simp only [List.map_cons, hb, if_true]
      exact dictGet?_cons_pos (k, v) _ k rfl
    · have hrest : keyMem rest k = true := by
        rcases (keyMem_iff_exists (p :: rest) k).1 h with ⟨q, hq, hqk⟩
        rcases List.mem_cons.1 hq with rfl | hq
        · exact absurd hqk hp
        · exact (keyMem_iff_exists rest k).2 ⟨q, hq, hqk⟩
      have hb : (p.1 == k) = false := by simpa using hp
      simp only [List.map_cons, hb, Bool.false_eq_true, if_false]
      rw [dictGet?_cons_neg p _ k hp]
      exact ih hrest

theorem dictGet?_replace_ne (dv : List (Nat × DVal)) (k j : Nat) (v : DVal)
    (h : j ≠ k) :
    dictGet? (dv.map fun p => if p.1 == k then (k, v) else p) j = dictGet? dv j := by
  induction dv with
  | nil => rfl
  | cons p rest ih =>
    by_cases hp : p.1 = k
    · have hb : (p.1 == k) = true := beq_iff_eq.2 hp
      simp only [List.map_cons, hb, if_true]
      rw [dictGet?_cons_neg (k, v) _ j (Ne.symm h),
        dictGet?_cons_neg p rest j (by rw [hp]; exact Ne.symm h)]
      exact ih
    · have hb : (p.1 == k) = false := by simpa using hp
      simp only [List.map_cons, hb, Bool.false_eq_true, if_false]
      by_cases hj : p.1 = j
      · rw [dictGet?_cons_pos p _ j hj, dictGet?_cons_pos p rest j hj]
      · rw [dictGet?_cons_neg p _ j hj, dictGet?_cons_neg p rest j hj]
        exact ih

theorem dictGet?_append_of_none (dv dw : List (Nat × DVal)) (k : Nat)
    (h : dictGet? dv k = none) :
    dictGet? (dv ++ dw) k = dictGet? dw k := by
  induction dv with
  | nil => rfl
  | cons p rest ih =>
    by_cases hp : p.1 = k
    · rw [dictGet?_cons_pos p rest k hp] at h
      exact absurd h (by simp)
    · rw [dictGet?_cons_neg p rest k hp] at h
      rw [List.cons_append, dictGet?_cons_neg p _ k hp]
      exact ih h

theorem dictGet?_dictSet_self (dv : List (Nat × DVal)) (k : Nat) (v : DVal) :
    dictGet? (dictSet dv k v) k = some v := by
  unfold dictSet
  by_cases h : keyMem dv k = true
  · rw [if_pos h]
    exact dictGet?_replace_self dv k v h
  · rw [if_neg h]
    rw [dictGet?_append_of_none dv [(k, v)] k
      ((keyMem_eq_false_iff dv k).1 (Bool.eq_false_iff.2 h))]
    exact dictGet?_cons_pos (k, v) [] k rfl

theorem dictGet?_append_of_some (dv dw : List (Nat × DVal)) (k : Nat) (v : DVal)
    (h : dictGet? dv k = some v) :
    dictGet? (dv ++ dw) k = some v := by
  induction dv with
  | nil => exact absurd h (by simp [dictGet?])
  | cons p rest ih =>
    by_cases hp : p.1 = k
    · rw [dictGet?_cons_pos p rest k hp] at h
      rw [List.cons_append, dictGet?_cons_pos p _ k hp]
      exact h
    · rw [dictGet?_cons_neg p rest k hp] at h
      rw [List.cons_append, dictGet?_cons_neg p _ k hp]
      exact ih h

theorem dictGet?_dictSet_ne (dv : List (Nat × DVal)) (k j : Nat) (v : DVal)
    (h : j ≠ k) : dictGet? (dictSet dv k v) j = dictGet? dv j := by
  unfold dictSet
  by_cases hm : keyMem dv k = true
  · rw [if_pos hm]
    exact dictGet?_replace_ne dv k j v h
  · rw [if_neg hm]
    cases hg : dictGet? dv j with
    | some w => exact dictGet?_append_of_some dv [(k, v)] j w hg
    | none =>
      rw [dictGet?_append_of_none dv [(k, v)] j hg,
        dictGet?_cons_neg (k, v) [] j (Ne.symm h)]
      simp [dictGet?, hg]

theorem dictSet_keys_of_mem (dv : List (Nat × DVal)) (k : Nat) (v : DVal)
    (h : keyMem dv k = true) :
    (dictSet dv k v).map Prod.fst = dv.map Prod.fst := by
  unfold dictSet
  rw [if_pos h, List.map_map]
  apply List.map_congr_left
  intro p _
  by_cases hp : p.1 = k
  · simp [beq_iff_eq.2 hp, hp]
  · simp [beq_iff_eq, hp]

theorem dictSet_keys_of_not_mem (dv : List (Nat × DVal)) (k : Nat) (v : DVal)
    (h : keyMem dv k = false) :
    (dictSet dv k v).map Prod.fst = dv.map Prod.fst ++ [k] := by
  unfold dictSet
  rw [if_neg (by simp [h]), List.map_append]
  rfl

theorem not_mem_keys_of_keyMem_false (dv : List (Nat × DVal)) (k : Nat)
    (h : keyMem dv k = false) : k ∉ dv.map Prod.fst := by
  intro hmem
  obtain ⟨w, hw⟩ := (dictGet?_isSome_iff dv k).2 hmem
  rw [(keyMem_eq_false_iff dv k).1 h] at hw
  cases hw

theorem dictSet_keys_nodup (dv : List (Nat × DVal)) (k : Nat) (v : DVal)
    (h : (dv.map Prod.fst).Nodup) :
    ((dictSet dv k v).map Prod.fst).Nodup := by
  by_cases hm : keyMem dv k = true
  · rw [dictSet_keys_of_mem dv k v hm]
    exact h
  · rw [dictSet_keys_of_not_mem dv k v (Bool.eq_false_iff.2 hm)]
    rw [List.nodup_append]
    refine ⟨h, List.nodup_singleton k, ?_⟩
    intro a ha hak
    rw [List.mem_singleton.1 hak] at ha
    exact not_mem_keys_of_keyMem_false dv k (Bool.eq_false_iff.2 hm) ha

/-! Softmax lemmas. -/

theorem list_sum_div (l : List ℝ) (c : ℝ) :
    (l.map fun e => e / c).sum = l.sum / c := by
  induction l with
  | nil => simp
  | cons a t ih => simp [ih, add_div]

theorem expDistances_pos (ds : List ℝ) : ∀ e ∈ expDistances ds, 0 < e := by
  intro e he
  simp only [expDistances, List.mem_map] at he
  obtain ⟨d, _, rfl⟩ := he
  exact Real.exp_pos _

theorem expDistances_sum_pos (ds : List ℝ) (h : ds ≠ []) :
    0 < (expDistances ds).sum := by
  apply List.sum_pos _ (expDistances_pos ds)
  simpa [expDistances] using h

theorem softmax_length (ds : List ℝ) : (softmax ds).length = ds.length := by
  simp [softmax, expDistances]

theorem softmax_sum (ds : List ℝ) (h : ds ≠ []) : (softmax ds).sum = 1 := by
  unfold softmax
  rw [list_sum_div]
  exact div_self (ne_of_gt (expDistances_sum_pos ds h))

theorem softmax_get? (ds : List ℝ) (i : Nat) :
    (softmax ds).get? i = (ds.get? i).map
      (fun d => Real.exp (-(d / 1000)) / (expDistances ds).sum) := by
  simp [softmax, expDistances, List.get?_map, Option.map_map]
  rfl

theorem softmax_getD (ds : List ℝ) (i : Nat) (h : i < ds.length) :
    (softmax ds).getD i 0 =
      Real.exp (-(ds.getD i 0 / 1000)) / (expDistances ds).sum := by
  rw [List.getD_eq_get?, List.getD_eq_get?, softmax_get?,
    List.get?_eq_get h]
  rfl

theorem softmax_strict_anti (ds : List ℝ) (i j : Nat) (hi : i < ds.length)
    (hj : j < ds.length) (hij : ds.getD i 0 < ds.getD j 0) :
    (softmax ds).getD j 0 < (softmax ds).getD i 0 := by
  have hne : ds ≠ [] := by
    intro hnil
    rw [hnil] at hi
    simp at hi
  have hS := expDistances_sum_pos ds hne
  rw [softmax_getD ds i hi, softmax_getD ds j hj]
  have h2 : Real.exp (-(ds.getD j 0 / 1000)) < Real.exp (-(ds.getD i 0 / 1000)) :=
    Real.exp_lt_exp.2 (by linarith)
  exact div_lt_div_of_pos_right h2 hS

theorem softmax_mem_pos_le_one (ds : List ℝ) (h : ds ≠ []) :
    ∀ w ∈ softmax ds, 0 < w ∧ w ≤ 1 := by
  intro w hw
  unfold softmax at hw
  obtain ⟨e, he, rfl⟩ := List.mem_map.1 hw
  have hepos := expDistances_pos ds e he
  have hS := expDistances_sum_pos ds h
  refine ⟨div_pos hepos hS, ?_⟩
  rw [div_le_one hS]
  exact List.single_le_sum (fun x hx => le_of_lt (expDistances_pos ds x hx)) e he

theorem softmax_singleton (d : ℝ) : softmax [d] = [1] := by
  simp [softmax, expDistances, div_self (Real.exp_ne_zero (-(d / 1000)))]

/-! Aggregation: the invariant tying the first-pass dictionary to the
processed prefix of `teammates_data`. -/

def AggInv (seen : List ProxRow) (dv : List (Nat × DVal)) : Prop :=
  (dv.map Prod.fst).Nodup ∧
  ∀ t : Nat,
    (dictGet? dv t = none → ∀ r ∈ seen, r.tick ≠ t) ∧
    (∀ v : DVal, dictGet? dv t = some v →
      v.was_traded = false ∧
      (∃ r ∈ seen, r.tick = t ∧ v.softmax_value = r.weight ∧
        v.round = r.round ∧ v.teammate = r.name) ∧
      (∀ r ∈ seen, r.tick = t → r.weight ≤ v.softmax_value))

theorem aggStep_of_none (dv : List (Nat × DVal)) (row : ProxRow)
    (hget : dictGet? dv row.tick = none) :
    aggStep dv row = dictSet dv row.tick ⟨row.weight, false, row.round, row.name⟩ := by
  unfold aggStep
  rw [hget]

theorem aggStep_of_some (dv : List (Nat × DVal)) (row : ProxRow) (cur : DVal)
    (hget : dictGet? dv row.tick = some cur) :
    aggStep dv row = if row.weight > cur.softmax_value
      then dictSet dv row.tick ⟨row.weight, false, row.round, row.name⟩
      else dv := by
  unfold aggStep
  rw [hget]

theorem aggInv_step (seen : List ProxRow) (dv : List (Nat × DVal)) (row : ProxRow)
    (h : AggInv seen dv) : AggInv (seen ++ [row]) (aggStep dv row) := by
  obtain ⟨hnodup, hinv⟩ := h
  cases hget : dictGet? dv row.tick with
  | none =>
    rw [aggStep_of_none dv row hget]
    refine ⟨dictSet_keys_nodup dv row.tick _ hnodup, fun t => ⟨?_, ?_⟩⟩
    · intro hnone r hr
      by_cases ht : t = row.tick
      · subst ht
        rw [dictGet?_dictSet_self] at hnone
        cases hnone
      · rw [dictGet?_dictSet_ne dv row.tick t _ ht] at hnone
        rcases List.mem_append.1 hr with hr | hr
        · exact (hinv t).1 hnone r hr
        · rcases List.mem_singleton.1 hr with rfl
          exact fun htick => ht htick.symm
    · intro v hv
      by_cases ht : t = row.tick
      · subst ht
        rw [dictGet?_dictSet_self] at hv
        injection hv with hv
        subst hv
        refine ⟨rfl, ⟨row, List.mem_append_right _ (List.mem_singleton.2 rfl),
          rfl, rfl, rfl, rfl⟩, ?_⟩
        intro r hr hrt
        rcases List.mem_append.1 hr with hr | hr
        · exact absurd hrt ((hinv row.tick).1 hget r hr)
        · rcases List.mem_singleton.1 hr with rfl
          exact le_refl _
      · rw [dictGet?_dictSet_ne dv row.tick t _ ht] at hv
        obtain ⟨hwt, ⟨r0, hr0, hr0t, hr0w, hr0r, hr0n⟩, hmax⟩ := (hinv t).2 v hv
        refine ⟨hwt, ⟨r0, List.mem_append_left _ hr0, hr0t, hr0w, hr0r, hr0n⟩, ?_⟩
        intro r hr hrt
        rcases List.mem_append.1 hr with hr | hr
        · exact hmax r hr hrt
        · rcases List.mem_singleton.1 hr with rfl
          exact absurd hrt.symm ht
  | some cur =>
    rw [aggStep_of_some dv row cur hget]
    by_cases hgt : row.weight > cur.softmax_value
    · rw [if_pos hgt]
      refine ⟨dictSet_keys_nodup dv row.tick _ hnodup, fun t => ⟨?_, ?_⟩⟩
      · intro hnone r hr
        by_cases ht : t = row.tick
        · subst ht
          rw [dictGet?_dictSet_self] at hnone
          cases hnone
        · rw [dictGet?_dictSet_ne dv row.tick t _ ht] at hnone
          rcases List.mem_append.1 hr with hr | hr
          · exact (hinv t).1 hnone r hr
          · rcases List.mem_singleton.1 hr with rfl
            exact fun htick => ht htick.symm
      · intro v hv
        by_cases ht : t = row.tick
        · subst ht
          rw [dictGet?_dictSet_self] at hv
          injection hv with hv
          subst hv
          obtain ⟨_, _, hmaxcur⟩ := (hinv row.tick).2 cur hget
          refine ⟨rfl, ⟨row, List.mem_append_right _ (List.mem_singleton.2 rfl),
            rfl, rfl, rfl, rfl⟩, ?_⟩
          intro r hr hrt
          rcases List.mem_append.1 hr with hr | hr
          · exact le_of_lt (lt_of_le_of_lt (hmaxcur r hr hrt) hgt)
          · rcases List.mem_singleton.1 hr with rfl
            exact le_refl _
        · rw [dictGet?_dictSet_ne dv row.tick t _ ht] at hv
          obtain ⟨hwt, ⟨r0, hr0, hr0t, hr0w, hr0r, hr0n⟩, hmax⟩ := (hinv t).2 v hv
          refine ⟨hwt, ⟨r0, List.mem_append_left _ hr0, hr0t, hr0w, hr0r, hr0n⟩, ?_⟩
          intro r hr hrt
          rcases List.mem_append.1 hr with hr | hr
          · exact hmax r hr hrt
          · rcases List.mem_singleton.1 hr with rfl
            exact absurd hrt.symm ht
    · rw [if_neg hgt]
      refine ⟨hnodup, fun t => ⟨?_, ?_⟩⟩
      · intro hnone r hr
        rcases List.mem_append.1 hr with hr | hr
        · exact (hinv t).1 hnone r hr
        · rcases List.mem_singleton.1 hr with rfl
          intro htick
          rw [htick] at hget
          rw [hget] at hnone
          cases hnone
      · intro v hv
        obtain ⟨hwt, ⟨r0, hr0, hr0t, hr0w, hr0r, hr0n⟩, hmax⟩ := (hinv t).2 v hv
        refine ⟨hwt, ⟨r0, List.mem_append_left _ hr0, hr0t, hr0w, hr0r, hr0n⟩, ?_⟩
        intro r hr hrt
        rcases List.mem_append.1 hr with hr | hr
        · exact hmax r hr hrt
        · rcases List.mem_singleton.1 hr with rfl
          rw [hrt] at hget
          rw [hget] at hv
          injection hv with hv
          subst hv
          exact le_of_not_lt hgt

theorem aggInv_fold (rows : List ProxRow) :
    ∀ (seen : List ProxRow) (dv : List (Nat × DVal)), AggInv seen dv →
      AggInv (seen ++ rows) (rows.foldl aggStep dv) := by
  induction rows with
  | nil =>
    intro seen dv h
    simpa using h
  | cons r rest ih =>
    intro seen dv h
    have h2 := ih (seen ++ [r]) (aggStep dv r) (aggInv_step seen dv r h)
    simpa [List.append_assoc] using h2

theorem aggInv_nil : AggInv [] [] := by
  refine ⟨by simp, fun t => ⟨?_, ?_⟩⟩
  · intro _ r hr
    cases hr
  · intro v hv
    simp [dictGet?] at hv

theorem aggregate_inv (rows : List ProxRow) : AggInv rows (aggregate rows) := by
  have h := aggInv_fold rows [] [] aggInv_nil
  simpa [aggregate] using h

theorem aggregate_none_iff (rows : List ProxRow) (t : Nat) :
    dictGet? (aggregate rows) t = none ↔ ∀ r ∈ rows, r.tick ≠ t := by
  constructor
  · exact ((aggregate_inv rows).2 t).1
  · intro h
    cases hg : dictGet? (aggregate rows) t with
    | none => rfl
    | some v =>
      obtain ⟨_, ⟨r, hr, hrt, _⟩, _⟩ := ((aggregate_inv rows).2 t).2 v hg
      exact absurd hrt (h r hr)

theorem aggregate_some_spec (rows : List ProxRow) (t : Nat) (v : DVal)
    (h : dictGet? (aggregate rows) t = some v) :
    v.was_traded = false ∧
    (∃ r ∈ rows, r.tick = t ∧ v.softmax_value = r.weight ∧
      v.round = r.round ∧ v.teammate = r.name) ∧
    (∀ r ∈ rows, r.tick = t → r.weight ≤ v.softmax_value) :=
  ((aggregate_inv rows).2 t).2 v h

theorem aggregate_mem_keys_iff (rows : List ProxRow) (t : Nat) :
    t ∈ (aggregate rows).map Prod.fst ↔ ∃ r ∈ rows, r.tick = t := by
  rw [← dictGet?_isSome_iff]
  constructor
  · rintro ⟨v, hv⟩
    obtain ⟨_, ⟨r, hr, hrt, _⟩, _⟩ := aggregate_some_spec rows t v hv
    exact ⟨r, hr, hrt⟩
  · rintro ⟨r, hr, hrt⟩
    cases hg : dictGet? (aggregate rows) t with
    | some v => exact ⟨v, rfl⟩
    | none => exact absurd hrt ((aggregate_none_iff rows t).1 hg r hr)

theorem aggregate_perm_getD (rows rows' : List ProxRow) (hperm : rows.Perm rows')
    (t : Nat)
    (hdist : (rows.filter fun r => r.tick == t).Pairwise
      fun a b => a.weight ≠ b.weight) :
    dictGet? (aggregate rows) t = dictGet? (aggregate rows') t := by
  cases hg : dictGet? (aggregate rows) t with
  | none =>
    cases hg' : dictGet? (aggregate rows') t with
    | none => rfl
    | some v' =>
      obtain ⟨_, ⟨r', hr', hrt', _⟩, _⟩ := aggregate_some_spec rows' t v' hg'
      exact absurd hrt' ((aggregate_none_iff rows t).1 hg r' (hperm.mem_iff.2 hr'))
  | some v =>
    cases hg' : dictGet? (aggregate rows') t with
    | none =>
      obtain ⟨_, ⟨r, hr, hrt, _⟩, _⟩ := aggregate_some_spec rows t v hg
      exact absurd hrt ((aggregate_none_iff rows' t).1 hg' r (hperm.mem_iff.1 hr))
    | some v' =>
      obtain ⟨hb, ⟨r, hr, hrt, hw, hrd, hn⟩, hmax⟩ := aggregate_some_spec rows t v hg
      obtain ⟨hb', ⟨r', hr'2, hrt', hw', hrd', hn'⟩, hmax'⟩ :=
        aggregate_some_spec rows' t v' hg'
      have hr'rows : r' ∈ rows := hperm.mem_iff.2 hr'2
      have h1 : r'.weight ≤ v.softmax_value := hmax r' hr'rows hrt'
      have h2 : r.weight ≤ v'.softmax_value := hmax' r (hperm.mem_iff.1 hr) hrt
      have heq : r.weight = r'.weight := by
        rw [← hw, ← hw'] at *
        exact le_antisymm (hw' ▸ h2) h1
      have hrf : r ∈ rows.filter fun r => r.tick == t :=
        List.mem_filter.2 ⟨hr, by simp [hrt]⟩
      have hrf' : r' ∈ rows.filter fun r => r.tick == t :=
        List.mem_filter.2 ⟨hr'rows, by simp [hrt']⟩
      have hrr : r = r' := by
        by_contra hne
        exact hdist.forall (fun a b hab => hab.symm) hrf hrf' hne heq
      cases v with
  | mk vs vt vr vn =>
      cases v' with
  | mk vs' vt' vr' vn' =>
      simp only at hb hb' hw hw' hrd hrd' hn hn'
      subst hrr
      simp [hb, hb', hw, hw', hrd, hrd', hn, hn']

/-! Trade pass lemmas. -/

theorem tradeStep_of_neg (p : String) (dv : List (Nat × DVal)) (tr : Trade)
    (h : ¬(tr.victim_name = p ∧ tr.was_traded = true)) :
    tradeStep p dv tr = dv := by
  unfold tradeStep
  rw [if_neg h]

theorem tradeStep_pos_none (p : String) (dv : List (Nat × DVal)) (tr : Trade)
    (hc : tr.victim_name = p ∧ tr.was_traded = true)
    (hget : dictGet? dv tr.tick = none) :
    tradeStep p dv tr = dv := by
  unfold tradeStep
  rw [if_pos hc, hget]

theorem tradeStep_pos_some (p : String) (dv : List (Nat × DVal)) (tr : Trade)
    (cur : DVal) (hc : tr.victim_name = p ∧ tr.was_traded = true)
    (hget : dictGet? dv tr.tick = some cur) :
    tradeStep p dv tr =
      dictSet dv tr.tick ⟨cur.softmax_value, true, cur.round, cur.teammate⟩ := by
  unfold tradeStep
  rw [if_pos hc, hget]

theorem keyMem_true_of_get_some (dv : List (Nat × DVal)) (k : Nat) (v : DVal)
    (h : dictGet? dv k = some v) : keyMem dv k = true :=
  (keyMem_iff_exists dv k).2 ⟨(k, v), dictGet?_mem_of_some dv k v h, rfl⟩

theorem tradeStep_get (p : String) (dv : List (Nat × DVal)) (tr : Trade) (t : Nat) :
    dictGet? (tradeStep p dv tr) t =
      (dictGet? dv t).map fun v =>
        if tr.victim_name = p ∧ tr.was_traded = true ∧ tr.tick = t
        then ⟨v.softmax_value, true, v.round, v.teammate⟩ else v := by
  by_cases hc : tr.victim_name = p ∧ tr.was_traded = true
  · cases hcur : dictGet? dv tr.tick with
    | none =>
      rw [tradeStep_pos_none p dv tr hc hcur]
      cases hdt : dictGet? dv t with
      | none => simp
      | some w =>
        have hne : ¬tr.tick = t := by
          intro h
          rw [h, hdt] at hcur
          cases hcur
        simp [hne]
    | some cur =>
      rw [tradeStep_pos_some p dv tr cur hc hcur]
      by_cases ht : t = tr.tick
      · subst ht
        rw [dictGet?_dictSet_self, hcur]
        simp [hc.1, hc.2]
      · rw [dictGet?_dictSet_ne dv tr.tick t _ ht]
        cases hdt : dictGet? dv t with
        | none => simp
        | some w =>
          have hcc : ¬(tr.victim_name = p ∧ tr.was_traded = true ∧ tr.tick = t) := by
            rintro ⟨_, _, h3⟩
            exact ht h3.symm
          simp [hcc]
  · rw [tradeStep_of_neg p dv tr hc]
    have hcc : ¬(tr.victim_name = p ∧ tr.was_traded = true ∧ tr.tick = t) := by
      rintro ⟨h1, h2, _⟩
      exact hc ⟨h1, h2⟩
    cases hdt : dictGet? dv t with
    | none => simp
    | some w => simp [hcc]

theorem applyTrades_get (p : String) (trs : List Trade) (dv : List (Nat × DVal))
    (t : Nat) :
    dictGet? (applyTrades p trs dv) t = (dictGet? dv t).map fun v =>
      ⟨v.softmax_value, v.was_traded || tradedAt p trs t, v.round, v.teammate⟩ := by
  induction trs generalizing dv with
  | nil =>
    cases hdt : dictGet? dv t with
    | none => simp [applyTrades, hdt]
    | some w => simp [applyTrades, tradedAt, hdt]
  | cons tr rest ih =>
    have hfold : applyTrades p (tr :: rest) dv = applyTrades p rest (tradeStep p dv tr) :=
      rfl
    rw [hfold, ih (tradeStep p dv tr), tradeStep_get p dv tr t]
    cases hdt : dictGet? dv t with
    | none => simp
    | some w =>
      simp only [Option.map_some']
      by_cases hcp : tr.victim_name = p ∧ tr.was_traded = true ∧ tr.tick = t
      · have hbt : tradedAt p (tr :: rest) t = true := by
          simp [tradedAt, hcp.1, hcp.2.1, hcp.2.2]
        rw [if_pos hcp, hbt]
        simp
      · have hhead : (tr.victim_name == p && tr.was_traded && (tr.tick == t)) = false := by
          by_cases h1 : tr.victim_name = p
          · by_cases h2 : tr.was_traded = true
            · have h3 : tr.tick ≠ t := fun h3 => hcp ⟨h1, h2, h3⟩
              simp [h1, h2, h3]
            · have h2f : tr.was_traded = false := by
                cases hb : tr.was_traded
                · rfl
                · exact absurd hb h2
              simp [h2f]
          · have h1f : (tr.victim_name == p) = false := by
              simpa using h1
            simp [h1f]
        have hbt : tradedAt p (tr :: rest) t = tradedAt p rest t := by
          simp [tradedAt, List.any_cons, hhead]
        rw [if_neg hcp, hbt]

theorem tradeStep_keys (p : String) (dv : List (Nat × DVal)) (tr : Trade) :
    (tradeStep p dv tr).map Prod.fst = dv.map Prod.fst := by
  by_cases hc : tr.victim_name = p ∧ tr.was_traded = true
  · cases hcur : dictGet? dv tr.tick with
    | none => rw [tradeStep_pos_none p dv tr hc hcur]
    | some cur =>
      rw [tradeStep_pos_some p dv tr cur hc hcur]
      exact dictSet_keys_of_mem dv tr.tick _ (keyMem_true_of_get_some dv tr.tick cur hcur)
  · rw [tradeStep_of_neg p dv tr hc]

theorem applyTrades_keys (p : String) (trs : List Trade) (dv : List (Nat × DVal)) :
    (applyTrades p trs dv).map Prod.fst = dv.map Prod.fst := by
  induction trs generalizing dv with
  | nil => rfl
  | cons tr rest ih =>
    have hfold : applyTrades p (tr :: rest) dv = applyTrades p rest (tradeStep p dv tr) :=
      rfl
    rw [hfold, ih (tradeStep p dv tr), tradeStep_keys p dv tr]

theorem tradeStep_noop (p : String) (dv : List (Nat × DVal)) (tr : Trade)
    (h : tr.victim_name ≠ p ∨ tr.was_traded = false ∨ dictGet? dv tr.tick = none) :
    tradeStep p dv tr = dv := by
  rcases h with h | h | h
  · exact tradeStep_of_neg p dv tr fun hcp => h hcp.1
  · exact tradeStep_of_neg p dv tr fun hcp => by rw [hcp.2] at h; cases h
  · by_cases hc : tr.victim_name = p ∧ tr.was_traded = true
    · exact tradeStep_pos_none p dv tr hc h
    · exact tradeStep_of_neg p dv tr hc

/-! Rows emitted for a single death. -/

theorem deathKillRows_tick (locations : List Location) (p : String)
    (death kill : KillRow) (r : ProxRow)
    (hr : r ∈ deathKillRows locations p death kill) : r.tick = death.tick := by
  obtain ⟨q, _, rfl⟩ := List.mem_map.1 hr
  rfl

theorem deathKillRows_of_no_teammates (locations : List Location) (p : String)
    (death kill : KillRow) (h : teammatesAt locations p death = []) :
    deathKillRows locations p death kill = [] := by
  unfold deathKillRows
  rw [h]
  rfl

/-! Real-exponential bounds for the numeric scenario. -/

theorem exp_neg_tenth_ge : (9 : ℝ) / 10 ≤ Real.exp (-(1 / 10)) := by
  have h := Real.add_one_le_exp (-(1 / 10) : ℝ)
  linarith

theorem exp_neg_tenth_le : Real.exp (-(1 / 10)) ≤ 10 / 11 := by
  have h := Real.add_one_le_exp ((1 / 10) : ℝ)
  rw [Real.exp_neg]
  have h2 : (Real.exp (1 / 10))⁻¹ ≤ ((11 : ℝ) / 10)⁻¹ :=
    inv_le_inv_of_le (by norm_num) (by linarith)
  calc (Real.exp (1 / 10))⁻¹ ≤ ((11 : ℝ) / 10)⁻¹ := h2
    _ = 10 / 11 := by norm_num

theorem exp_neg_half_eq : Real.exp (-(1 / 2)) = Real.exp (-(1 / 10)) ^ 5 := by
  rw [← Real.exp_nat_mul]
  norm_num

theorem exp_neg_half_ge : ((9 : ℝ) / 10) ^ 5 ≤ Real.exp (-(1 / 2)) := by
  rw [exp_neg_half_eq]
  exact pow_le_pow_left (by norm_num) exp_neg_tenth_ge 5

theorem exp_neg_half_le : Real.exp (-(1 / 2)) ≤ ((10 : ℝ) / 11) ^ 5 := by
  rw [exp_neg_half_eq]
  exact pow_le_pow_left (le_of_lt (Real.exp_pos _)) exp_neg_tenth_le 5

theorem softmax_100_500 :
    softmax [100, 500] =
      [Real.exp (-(1 / 10)) / (Real.exp (-(1 / 10)) + Real.exp (-(1 / 2))),
       Real.exp (-(1 / 2)) / (Real.exp (-(1 / 10)) + Real.exp (-(1 / 2)))] := by
  have h1 : ((100 : ℝ) / 1000) = 1 / 10 := by norm_num
  have h2 : ((500 : ℝ) / 1000) = 1 / 2 := by norm_num
  simp [softmax, expDistances, h1, h2]

theorem softmax_100_500_head_lt : (softmax [100, 500]).getD 0 0 < 0.61 := by
  rw [softmax_100_500]
  have ha1 := exp_neg_tenth_ge
  have ha2 := exp_neg_tenth_le
  have hb1 := exp_neg_half_ge
  have hb2 := exp_neg_half_le
  have hb5 : ((9 : ℝ) / 10) ^ 5 = 59049 / 100000 := by norm_num
  have hapos : (0 : ℝ) < Real.exp (-(1 / 10)) := Real.exp_pos _
  have hbpos : (0 : ℝ) < Real.exp (-(1 / 2)) := Real.exp_pos _
  have hsum : (0 : ℝ) < Real.exp (-(1 / 10)) + Real.exp (-(1 / 2)) := by linarith
  show Real.exp (-(1 / 10)) / (Real.exp (-(1 / 10)) + Real.exp (-(1 / 2))) < 0.61
  rw [div_lt_iff hsum]
  nlinarith [hb1, ha2, hb5]

theorem softmax_100_500_head_gt : (0.59 : ℝ) < (softmax [100, 500]).getD 0 0 := by
  rw [softmax_100_500]
  have ha1 := exp_neg_tenth_ge
  have hb2 := exp_neg_half_le
  have hb5 : ((10 : ℝ) / 11) ^ 5 = 100000 / 161051 := by norm_num
  have hapos : (0 : ℝ) < Real.exp (-(1 / 10)) := Real.exp_pos _
  have hbpos : (0 : ℝ) < Real.exp (-(1 / 2)) := Real.exp_pos _
  have hsum : (0 : ℝ) < Real.exp (-(1 / 10)) + Real.exp (-(1 / 2)) := by linarith
  show (0.59 : ℝ) < Real.exp (-(1 / 10)) / (Real.exp (-(1 / 10)) + Real.exp (-(1 / 2)))
  rw [lt_div_iff hsum]
  nlinarith [ha1, hb2, hb5]

/-! Claim theorems. -/

/-- Claim C1: for every aggregated death record and the default coefficients
alpha = 0.7 and beta = 0.3, `calc_weight` emits exactly one output row per
record, carrying the tick, proximity, traded flag, round and teammate of the
record unchanged, and scoring it as `alpha * (1 - proximity) + (beta if
traded else 0)`. -/
theorem calc_weight_emits_scored_rows (dv : List (Nat × DVal)) :
    (calc_weight dv 0.7 0.3).length = dv.length ∧
    ∀ i : Nat, i < dv.length →
      (calc_weight dv 0.7 0.3).getD i scoreRow0 =
        { tick := (dv.getD i entry0).1
          proximity := (dv.getD i entry0).2.softmax_value
          was_traded := (dv.getD i entry0).2.was_traded
          weighted_score := 0.7 * (1 - (dv.getD i entry0).2.softmax_value) +
            (if (dv.getD i entry0).2.was_traded then 0.3 else 0)
          round := (dv.getD i entry0).2.round
          closest_teammate := (dv.getD i entry0).2.teammate } := by
  constructor
  · simp [calc_weight]
  · intro i hi
    have hlen : i < (calc_weight dv 0.7 0.3).length := by
      simpa [calc_weight] using hi
    rw [List.getD_eq_get?, List.getD_eq_get?, List.get?_eq_get hi,
      List.get?_eq_get hlen]
    simp only [calc_weight, List.get_map, Option.getD_some]

/-- Witness for C1 at a concrete one-record dictionary. -/
theorem calc_weight_emits_scored_rows_witness :
    (calc_weight [((3 : Nat), (⟨1/2, true, 2, "A"⟩ : DVal))] 0.7 0.3).getD 0 scoreRow0 =
      { tick := ([((3 : Nat), (⟨1/2, true, 2, "A"⟩ : DVal))].getD 0 entry0).1
        proximity := ([((3 : Nat), (⟨1/2, true, 2, "A"⟩ : DVal))].getD 0 entry0).2.softmax_value
        was_traded := ([((3 : Nat), (⟨1/2, true, 2, "A"⟩ : DVal))].getD 0 entry0).2.was_traded
        weighted_score := 0.7 *
            (1 - ([((3 : Nat), (⟨1/2, true, 2, "A"⟩ : DVal))].getD 0 entry0).2.softmax_value) +
          (if ([((3 : Nat), (⟨1/2, true, 2, "A"⟩ : DVal))].getD 0 entry0).2.was_traded
            then 0.3 else 0)
        round := ([((3 : Nat), (⟨1/2, true, 2, "A"⟩ : DVal))].getD 0 entry0).2.round
        closest_teammate :=
          ([((3 : Nat), (⟨1/2, true, 2, "A"⟩ : DVal))].getD 0 entry0).2.teammate } :=
  (calc_weight_emits_scored_rows [((3 : Nat), (⟨1/2, true, 2, "A"⟩ : DVal))]).2 0
    (by simp)

/-- Claim C2 (counterexample): the claim quantifies over every distance list,
but on the empty list (which the program does reach when a death has no
teammates) the softmax output is the empty list, whose sum is 0, not 1. -/
theorem softmax_nil_sum_ne_one : (softmax ([] : List ℝ)).sum ≠ 1 := by
  simp [softmax, expDistances]

/-- Claim C2 (amended): for every nonempty list of distances, the softmax
output has one weight per distance, sums to exactly 1, and a strictly larger
input distance receives a strictly smaller output weight. -/
theorem softmax_sum_one_and_antitone (ds : List ℝ) (h : ds ≠ []) :
    (softmax ds).sum = 1 ∧ (softmax ds).length = ds.length ∧
    ∀ i j : Nat, i < ds.length → j < ds.length →
      ds.getD i 0 < ds.getD j 0 →
      (softmax ds).getD j 0 < (softmax ds).getD i 0 :=
  ⟨softmax_sum ds h, softmax_length ds,
    fun i j hi hj hij => softmax_strict_anti ds i j hi hj hij⟩

/-- Witness for C2 (amended) on the list [1, 2]. -/
theorem softmax_sum_one_and_antitone_witness :
    (softmax [(1 : ℝ), 2]).sum = 1 ∧
    (softmax [(1 : ℝ), 2]).getD 1 0 < (softmax [(1 : ℝ), 2]).getD 0 0 :=
  ⟨(softmax_sum_one_and_antitone [(1 : ℝ), 2] (by simp)).1,
    (softmax_sum_one_and_antitone [(1 : ℝ), 2] (by simp)).2.2 0 1
      (by norm_num) (by norm_num) (by norm_num)⟩

/-- Claim C4: the trade-application pass only ever raises the traded flag
(false to true, never the reverse) and leaves the softmax value, round and
teammate of every record unchanged: the record at tick `t` after the pass is
exactly the old record with `was_traded` or-ed with the trade table's verdict
for the subject player at `t`. -/
theorem applyTrades_flag_monotone_frame (p : String) (trs : List Trade)
    (dv : List (Nat × DVal)) (t : Nat) :
    dictGet? (applyTrades p trs dv) t = (dictGet? dv t).map fun v =>
      ⟨v.softmax_value, v.was_traded || tradedAt p trs t, v.round, v.teammate⟩ :=
  applyTrades_get p trs dv t

/-- Claim C9: the trade-application pass never adds or removes a dictionary
key, and a trade row whose victim is not the subject player, whose traded
flag is false, or whose tick is not an existing key leaves the dictionary
entirely unchanged. -/
theorem applyTrades_key_frame (p : String) (trs : List Trade)
    (dv : List (Nat × DVal)) :
    (applyTrades p trs dv).map Prod.fst = dv.map Prod.fst ∧
    ∀ tr : Trade,
      (tr.victim_name ≠ p ∨ tr.was_traded = false ∨ dictGet? dv tr.tick = none) →
      tradeStep p dv tr = dv :=
  ⟨applyTrades_keys p trs dv, fun tr h => tradeStep_noop p dv tr h⟩

/-- Witness for C9: a trade row for a different victim is a no-op. -/
theorem applyTrades_key_frame_witness :
    (applyTrades "me" [] [((3 : Nat), (⟨1/2, false, 1, "A"⟩ : DVal))]).map Prod.fst =
      [((3 : Nat), (⟨1/2, false, 1, "A"⟩ : DVal))].map Prod.fst ∧
    tradeStep "me" [((3 : Nat), (⟨1/2, false, 1, "A"⟩ : DVal))] ⟨99, "other", true⟩ =
      [((3 : Nat), (⟨1/2, false, 1, "A"⟩ : DVal))] :=
  ⟨(applyTrades_key_frame "me" [] [((3 : Nat), (⟨1/2, false, 1, "A"⟩ : DVal))]).1,
    (applyTrades_key_frame "me" [] [((3 : Nat), (⟨1/2, false, 1, "A"⟩ : DVal))]).2
      ⟨99, "other", true⟩ (Or.inl (by decide))⟩

/-- Claim C10: softmax outputs lie in (0, 1], and for every dictionary whose
proximity values lie in (0, 1] every weighted score computed by `calc_weight`
with the default coefficients 0.7 and 0.3 lies in [0, 1). -/
theorem weighted_score_in_unit (ds : List ℝ) (hds : ds ≠ [])
    (dv : List (Nat × DVal))
    (hdv : ∀ e ∈ dv, 0 < e.2.softmax_value ∧ e.2.softmax_value ≤ 1) :
    (∀ w ∈ softmax ds, 0 < w ∧ w ≤ 1) ∧
    ∀ srow ∈ calc_weight dv 0.7 0.3,
      0 ≤ srow.weighted_score ∧ srow.weighted_score < 1 := by
  refine ⟨softmax_mem_pos_le_one ds hds, ?_⟩
  intro srow hs
  simp only [calc_weight, List.mem_map] at hs
  obtain ⟨e, he, rfl⟩ := hs
  obtain ⟨h1, h2⟩ := hdv e he
  simp only []
  by_cases ht : e.2.was_traded = true
  · rw [if_pos ht]
    constructor
    · nlinarith
    · nlinarith
  · rw [if_neg ht]
    constructor
    · nlinarith
    · nlinarith

/-- Witness for C10 at a concrete proximity-1, traded record. -/
theorem weighted_score_in_unit_witness :
    0 ≤ (ScoreRow.mk 1 1 true (0.7 * (1 - 1) + (if true then (0.3 : ℝ) else 0)) 1 "A").weighted_score ∧
    (ScoreRow.mk 1 1 true (0.7 * (1 - 1) + (if true then (0.3 : ℝ) else 0)) 1 "A").weighted_score < 1 :=
  (weighted_score_in_unit [(1 : ℝ)] (by simp)
    [((1 : Nat), (⟨1, true, 1, "A"⟩ : DVal))]
    (by intro e he
        simp only [List.mem_singleton] at he
        subst he
        norm_num)).2
    (ScoreRow.mk 1 1 true (0.7 * (1 - 1) + (if true then (0.3 : ℝ) else 0)) 1 "A")
    (by simp [calc_weight])

/-- Claim C3 (counterexample): the aggregated record is NOT independent of
the input ordering of the proximity rows: two rows at the same tick with
equal (tied) weights but different teammates yield different records when
their order is swapped, although the two inputs are permutations of each
other. -/
theorem aggregate_tie_order_dependent :
    ((([⟨1, 1, "A", 1/2⟩, ⟨1, 1, "B", 1/2⟩]) : List ProxRow).Perm
      [⟨1, 1, "B", 1/2⟩, ⟨1, 1, "A", 1/2⟩]) ∧
    aggregate [⟨1, 1, "A", 1/2⟩, ⟨1, 1, "B", 1/2⟩] ≠
      aggregate [⟨1, 1, "B", 1/2⟩, ⟨1, 1, "A", 1/2⟩] := by
  constructor
  · exact List.Perm.swap _ _ _
  · have s1 : ∀ nm : String, aggStep ([] : List (Nat × DVal)) ⟨1, 1, nm, 1/2⟩ =
        [(1, ⟨1/2, false, 1, nm⟩)] := by
      intro nm
      rw [aggStep_of_none [] ⟨1, 1, nm, 1/2⟩ rfl]
      rfl
    have s2 : ∀ nm nm' : String,
        aggStep [((1 : Nat), (⟨1/2, false, 1, nm⟩ : DVal))] ⟨1, 1, nm', 1/2⟩ =
        [(1, ⟨1/2, false, 1, nm⟩)] := by
      intro nm nm'
      rw [aggStep_of_some [((1 : Nat), (⟨1/2, false, 1, nm⟩ : DVal))]
        ⟨1, 1, nm', 1/2⟩ ⟨1/2, false, 1, nm⟩ rfl]
      rw [if_neg (by norm_num)]
    have e1 : aggregate [⟨1, 1, "A", 1/2⟩, ⟨1, 1, "B", 1/2⟩] =
        [(1, ⟨1/2, false, 1, "A"⟩)] := by
      unfold aggregate
      rw [List.foldl_cons, s1 "A", List.foldl_cons, s2 "A" "B", List.foldl_nil]
    have e2 : aggregate [⟨1, 1, "B", 1/2⟩, ⟨1, 1, "A", 1/2⟩] =
        [(1, ⟨1/2, false, 1, "B"⟩)] := by
      unfold aggregate
      rw [List.foldl_cons, s1 "B", List.foldl_cons, s2 "B" "A", List.foldl_nil]
    rw [e1, e2]
    intro h
    have hAB : "A" = "B" := congrArg (fun l => (l.getD 0 entry0).2.teammate) h
    exact absurd hAB (by decide)

/-- Claim C3 (amended): the aggregation pass of `get_death_values` produces
exactly one record per distinct tick of the proximity rows (so two deaths
sharing one tick collapse into a single record); that record is untraded and
carries the weight, round and teammate of a row at that tick whose weight is
maximal among all rows at that tick; and whenever the weights at a tick are
pairwise distinct the record at that tick is independent of the input
ordering.  With tied weights the chosen teammate does depend on the order
(see the counterexample). -/
theorem aggregate_per_tick_spec (rows rows' : List ProxRow) :
    ((aggregate rows).map Prod.fst).Nodup ∧
    (∀ t : Nat, t ∈ (aggregate rows).map Prod.fst ↔ ∃ r ∈ rows, r.tick = t) ∧
    (∀ t : Nat, ∀ v : DVal, dictGet? (aggregate rows) t = some v →
      v.was_traded = false ∧
      (∃ r ∈ rows, r.tick = t ∧ v.softmax_value = r.weight ∧
        v.round = r.round ∧ v.teammate = r.name) ∧
      ∀ r ∈ rows, r.tick = t → r.weight ≤ v.softmax_value) ∧
    (rows.Perm rows' → ∀ t : Nat,
      ((rows.filter fun r => r.tick == t).Pairwise fun a b => a.weight ≠ b.weight) →
      dictGet? (aggregate rows) t = dictGet? (aggregate rows') t) :=
  ⟨(aggregate_inv rows).1,
    fun t => aggregate_mem_keys_iff rows t,
    fun t v h => aggregate_some_spec rows t v h,
    fun hperm t hdist => aggregate_perm_getD rows rows' hperm t hdist⟩

/-- Witness for C3 (amended): with distinct weights at the tick, swapping the
input order leaves the aggregated record unchanged. -/
theorem aggregate_per_tick_spec_witness :
    dictGet? (aggregate [⟨1, 1, "A", 1/2⟩, ⟨1, 1, "B", 1/4⟩]) 1 =
      dictGet? (aggregate [⟨1, 1, "B", 1/4⟩, ⟨1, 1, "A", 1/2⟩]) 1 :=
  (aggregate_per_tick_spec [⟨1, 1, "A", 1/2⟩, ⟨1, 1, "B", 1/4⟩]
      [⟨1, 1, "B", 1/4⟩, ⟨1, 1, "A", 1/2⟩]).2.2.2
    (List.Perm.swap _ _ _) 1
    (by
      have hf : ([⟨1, 1, "A", 1/2⟩, ⟨1, 1, "B", 1/4⟩] : List ProxRow).filter
          (fun r => r.tick == 1) = [⟨1, 1, "A", 1/2⟩, ⟨1, 1, "B", 1/4⟩] := rfl
      rw [hf]
      refine List.Pairwise.cons ?_ ?_
      · intro b hb
        simp only [List.mem_singleton] at hb
        subst hb
        norm_num
      · exact List.pairwise_singleton _ _)

/-- Claim C5: for a tick `t` of the subject player's deaths at which no
teammate (same team, different name) is present in the tick table,
`get_teammates_on_death` emits no proximity row with tick `t`, the
aggregated-and-traded dictionary of `get_death_values` has no record at `t`,
and the final score table of `calc_weight` has no row with tick `t`. -/
theorem no_teammates_no_rows (locations : List Location) (p : String)
    (player_deaths kills : List KillRow) (trades : List Trade) (t : Nat)
    (H : ∀ d ∈ player_deaths, d.tick = t → teammatesAt locations p d = []) :
    ((get_teammates_on_death locations p player_deaths kills).filter
      fun r => r.tick == t) = [] ∧
    dictGet? (get_death_values
      (get_teammates_on_death locations p player_deaths kills) p trades) t = none ∧
    ((calc_weight (get_death_values
        (get_teammates_on_death locations p player_deaths kills) p trades)
      0.7 0.3).filter fun r => r.tick == t) = [] := by
  have hntick : ∀ r ∈ get_teammates_on_death locations p player_deaths kills,
      r.tick ≠ t := by
    intro r hr
    simp only [get_teammates_on_death, List.mem_flatMap] at hr
    obtain ⟨death, hd, kill, hk, hr3⟩ := hr
    have htick := deathKillRows_tick locations p death kill r hr3
    intro hrt
    have hdt : death.tick = t := by
      rw [← htick]
      exact hrt
    rw [deathKillRows_of_no_teammates locations p death kill (H death hd hdt)] at hr3
    cases hr3
  refine ⟨?_, ?_, ?_⟩
  · rw [List.filter_eq_nil]
    intro r hr
    simpa using hntick r hr
  · unfold get_death_values
    rw [applyTrades_get, (aggregate_none_iff _ t).2 hntick]
    rfl
  · rw [List.filter_eq_nil]
    intro srow hs
    simp only [calc_weight, List.mem_map] at hs
    obtain ⟨e, he, rfl⟩ := hs
    have hkey : e.1 ∈ (get_death_values
        (get_teammates_on_death locations p player_deaths kills) p trades).map
          Prod.fst :=
      List.mem_map.2 ⟨e, he, rfl⟩
    unfold get_death_values at hkey
    rw [applyTrades_keys] at hkey
    obtain ⟨r, hr, hrt⟩ := (aggregate_mem_keys_iff _ e.1).1 hkey
    simp only [beq_iff_eq]
    intro het
    exact hntick r hr (hrt.trans het)

/-- Witness for C5: a death at tick 7 with an empty tick table. -/
theorem no_teammates_no_rows_witness :
    dictGet? (get_death_values
      (get_teammates_on_death [] "me" [⟨7, 1, "me", "T", 0, 0⟩] []) "me" []) 7 =
      none :=
  (no_teammates_no_rows [] "me" [⟨7, 1, "me", "T", 0, 0⟩] [] [] 7
    (fun _ _ _ => rfl)).2.1

/-- Claim C6: for a death at whose tick exactly one teammate is present, the
single proximity row emitted for that (death, kill) pair carries softmax
weight exactly 1. -/
theorem single_teammate_weight_one (locations : List Location) (p : String)
    (death kill : KillRow)
    (h : (teammatesAt locations p death).length = 1) :
    (deathKillRows locations p death kill).map ProxRow.weight = [1] := by
  obtain ⟨tm, htm⟩ := List.length_eq_one.1 h
  have hd : deathDistances locations p death =
      [calc_distance death.victim_X death.victim_Y tm.X tm.Y] := by
    unfold deathDistances
    rw [htm]
    rfl
  unfold deathKillRows
  rw [htm, hd, softmax_singleton]
  rfl

/-- Witness for C6: a single teammate on team T at tick 5. -/
theorem single_teammate_weight_one_witness :
    (teammatesAt [⟨5, 0, 0, "T", "mate"⟩] "me" ⟨5, 1, "me", "T", 3, 4⟩).length = 1 ∧
    (deathKillRows [⟨5, 0, 0, "T", "mate"⟩] "me" ⟨5, 1, "me", "T", 3, 4⟩
      ⟨5, 1, "me", "T", 3, 4⟩).map ProxRow.weight = [1] :=
  ⟨by decide, single_teammate_weight_one [⟨5, 0, 0, "T", "mate"⟩] "me"
    ⟨5, 1, "me", "T", 3, 4⟩ ⟨5, 1, "me", "T", 3, 4⟩ (by decide)⟩

/-- Claim C7 (counterexample): softmax([100, 500]) is approximately
[0.60, 0.40], not [0.62, 0.38]: the first output weight differs from 0.62 by
more than 0.01 (it lies below 0.61). -/
theorem softmax_100_500_not_062 :
    (0.01 : ℝ) < |(softmax [100, 500]).getD 0 0 - 0.62| := by
  have h := softmax_100_500_head_lt
  rw [abs_sub_comm, abs_of_pos (by linarith)]
  linarith

/-- Claim C7 (amended): distances [100, 500] give two softmax weights within
0.01 of 0.60 and 0.40 respectively (the exact values are about 0.599 and
0.401), and `calc_weight` scores proximity 0.62, untraded, with the default
coefficients as 0.7 * (1 - 0.62) = 0.266. -/
theorem scenario_softmax_and_score :
    (softmax [100, 500]).length = 2 ∧
    |(softmax [100, 500]).getD 0 0 - 0.6| < 0.01 ∧
    |(softmax [100, 500]).getD 1 0 - 0.4| < 0.01 ∧
    ((calc_weight [((1 : Nat), (⟨0.62, false, 1, "A"⟩ : DVal))] 0.7 0.3).getD 0
      scoreRow0).weighted_score = 0.266 ∧
    (0.7 : ℝ) * (1 - 0.62) = 0.266 := by
  have hlt := softmax_100_500_head_lt
  have hgt := softmax_100_500_head_gt
  have hsum := softmax_sum [100, 500] (by simp)
  have hw1 : (softmax [100, 500]).getD 1 0 =
      1 - (softmax [100, 500]).getD 0 0 := by
    rw [softmax_100_500] at hsum ⊢
    simp only [List.sum_cons, List.sum_nil, add_zero] at hsum
    simp only [List.getD_cons_zero, List.getD_cons_succ]
    linarith
  refine ⟨by rw [softmax_100_500]; rfl, ?_, ?_, ?_, by norm_num⟩
  · rw [abs_lt]
    constructor <;> linarith
  · rw [hw1, abs_lt]
    constructor <;> linarith
  · norm_num [calc_weight, scoreRow0]

/-- A message of the shape "[X] (file) not found. Exiting.." differs from any
string whose last 21 characters are not " not found. Exiting..". -/
theorem not_found_msg_ne (f s : String)
    (hs : ¬(s.data.reverse.take 21 = " not found. Exiting..".data.reverse)) :
    ("[X] " ++ f ++ " not found. Exiting..") ≠ s := by
  intro h
  apply hs
  rw [← h]
  have hdata : ("[X] " ++ f ++ " not found. Exiting..").data =
      ("[X] ".data ++ f.data) ++ " not found. Exiting..".data := rfl
  rw [hdata, List.reverse_append, List.take_left'
    (show (" not found. Exiting..".data.reverse).length = 21 from rfl)]

/-- Claim C8 (amended): the program checks the three preconditions up front
(file existence, presence of kill data, presence of tick data); each failure
emits a distinct red error message and terminates immediately, writing no
spreadsheet and no map image — but via `sys.exit()` with no argument, so the
interpreter exit status is 0, not non-zero (see the counterexample). -/
theorem main_precondition_checks (env : Env) :
    (env.file_exists = false → main env = RunResult.exited Color.red
      ("[X] " ++ env.demo_file ++ " not found. Exiting..") 0 []) ∧
    (env.file_exists = true → env.kills = none → main env = RunResult.exited
      Color.red "[X] Kills not found in demo. Exiting.." 0 []) ∧
    (∀ ks : List KillRow, env.file_exists = true → env.kills = some ks →
      env.ticks = none → main env = RunResult.exited Color.red
        "[X] Ticks not found in the demo file. Exiting.." 0 []) ∧
    (∀ f : String, ("[X] " ++ f ++ " not found. Exiting..") ≠
      "[X] Kills not found in demo. Exiting..") ∧
    (∀ f : String, ("[X] " ++ f ++ " not found. Exiting..") ≠
      "[X] Ticks not found in the demo file. Exiting..") ∧
    ("[X] Kills not found in demo. Exiting.." ≠
      "[X] Ticks not found in the demo file. Exiting..") := by
  refine ⟨?_, ?_, ?_, ?_, ?_, by decide⟩
  · intro h
    unfold main
    rw [if_pos h]
  · intro h1 h2
    unfold main
    rw [if_neg (by simp [h1]), h2]
  · intro ks h1 h2 h3
    unfold main
    rw [if_neg (by simp [h1]), h2, h3]
  · intro f
    exact not_found_msg_ne f _ (by decide)
  · intro f
    exact not_found_msg_ne f _ (by decide)

/-- Witness for C8 (amended): a run whose replay has no kill data exits with
the kills message, status 0 and no outputs. -/
theorem main_precondition_checks_witness :
    main ⟨"d.dem", "me", false, true, none, none, [], []⟩ =
      RunResult.exited Color.red "[X] Kills not found in demo. Exiting.." 0 [] :=
  (main_precondition_checks ⟨"d.dem", "me", false, true, none, none, [], []⟩).2.1
    rfl rfl

/-- Claim C8 (counterexample): on a missing demo file the program terminates
via `sys.exit()` with no argument, so the interpreter exit status is 0 — not
the non-zero exit the claim states. -/
theorem main_missing_file_exit_code_zero :
    exitCode (main ⟨"x.dem", "me", false, false, none, none, [], []⟩) = some 0 :=
  rfl

end DeathValue
